import Mathlib

/-!
Verification development for the poe2templesolver repository.

The solver (src/solver-python/temple_solver.py) builds a CP-SAT model over a
9x9 grid of cells, each holding a room type and tier; adjacent compatible
in-temple cells auto-connect.  The job server (src/solver-python/server_prod.py)
wraps solves in a queue with rate limiting and abort.

This file shallowly embeds the rule catalogue, the model builder's constraint
tables and objective constraints, the post-solve SPY/CMD directional validator,
the solution callback, and the server's admission/status state machine, and
proves the claims about them.
-/

namespace TempleSolver

/-! ## Room types (ROOM_TYPES list, temple_solver.py lines 32-53) -/

/-- The 16 room types, in the exact order of the source's ROOM_TYPES list
(index 0 = EMPTY, 1 = PATH). -/
inductive RoomType where
  | EMPTY
  | PATH
  | GARRISON
  | SPYMASTER
  | COMMANDER
  | ARMOURY
  | ALCHEMY_LAB
  | SMITHY
  | CORRUPTION_CHAMBER
  | SACRIFICIAL_CHAMBER
  | THAUMATURGE
  | GENERATOR
  | GOLEM_WORKS
  | FLESH_SURGEON
  | SYNTHFLESH
  | LEGION_BARRACKS
deriving DecidableEq, Repr, Fintype

open RoomType

/-- ROOM_TYPES: the ordered list of room type names. -/
def roomTypesList : List RoomType :=
  [EMPTY, PATH, GARRISON, SPYMASTER, COMMANDER, ARMOURY, ALCHEMY_LAB, SMITHY,
   CORRUPTION_CHAMBER, SACRIFICIAL_CHAMBER, THAUMATURGE, GENERATOR, GOLEM_WORKS,
   FLESH_SURGEON, SYNTHFLESH, LEGION_BARRACKS]

/-- ROOM_TYPE_TO_IDX: index of a room type in ROOM_TYPES. -/
def toIdx : RoomType → Nat
  | EMPTY => 0
  | PATH => 1
  | GARRISON => 2
  | SPYMASTER => 3
  | COMMANDER => 4
  | ARMOURY => 5
  | ALCHEMY_LAB => 6
  | SMITHY => 7
  | CORRUPTION_CHAMBER => 8
  | SACRIFICIAL_CHAMBER => 9
  | THAUMATURGE => 10
  | GENERATOR => 11
  | GOLEM_WORKS => 12
  | FLESH_SURGEON => 13
  | SYNTHFLESH => 14
  | LEGION_BARRACKS => 15

/-- Inverse of toIdx on 0..15 (ROOM_TYPES[i]); EMPTY off-range, never used there. -/
def fromIdx (n : Nat) : RoomType := (roomTypesList.getD n EMPTY)

/-! ## Adjacency catalogue (SULOZOR_ADJACENCY, temple_solver.py lines 94-130) -/

/-- SULOZOR_ADJACENCY: what each room can connect to (room-to-room rows only;
rooms not listed have no row). -/
def sulozorAdjacency : RoomType → List RoomType
  | GARRISON => [COMMANDER, ARMOURY, SPYMASTER, SYNTHFLESH]
  | LEGION_BARRACKS => [COMMANDER, ARMOURY, SPYMASTER]
  | COMMANDER => [GARRISON, LEGION_BARRACKS]
  | SPYMASTER => [GARRISON, LEGION_BARRACKS]
  | ARMOURY => [GARRISON, LEGION_BARRACKS, SMITHY, ALCHEMY_LAB]
  | SMITHY => [ARMOURY, GOLEM_WORKS]
  | GOLEM_WORKS => [SMITHY]
  | GENERATOR => [THAUMATURGE, SACRIFICIAL_CHAMBER]
  | SYNTHFLESH => [GARRISON, FLESH_SURGEON]
  | FLESH_SURGEON => [SYNTHFLESH]
  | ALCHEMY_LAB => [ARMOURY, THAUMATURGE]
  | THAUMATURGE => [ALCHEMY_LAB, SACRIFICIAL_CHAMBER, CORRUPTION_CHAMBER, GENERATOR]
  | CORRUPTION_CHAMBER => [THAUMATURGE, SACRIFICIAL_CHAMBER]
  | SACRIFICIAL_CHAMBER => [THAUMATURGE, CORRUPTION_CHAMBER, GENERATOR]
  | _ => []

/-- VALID_ADJACENCY_PAIRS built by _build_valid_pairs: for every catalogue row
add both directions of each listed pair. -/
def validAdjacencyPairs : List (RoomType × RoomType) :=
  roomTypesList.flatMap fun room =>
    (sulozorAdjacency room).flatMap fun adj => [(room, adj), (adj, room)]

/-- can_be_adjacent: PATH adjacent to anything; EMPTY "is fine"; otherwise look
up the symmetrised catalogue pairs. -/
def canBeAdjacent (a b : RoomType) : Bool :=
  if a = PATH ∨ b = PATH then true
  else if a = EMPTY ∨ b = EMPTY then true
  else decide ((a, b) ∈ validAdjacencyPairs)

/-- compatible_type_pairs as built inside solve_temple (lines 774-783): skip any
pair involving EMPTY; PATH connects to anything non-empty; otherwise defer to
can_be_adjacent. -/
def compatiblePair (a b : RoomType) : Bool :=
  if a = EMPTY ∨ b = EMPTY then false
  else if a = PATH ∨ b = PATH then true
  else canBeAdjacent a b

/-- compatible_type_pairs over ROOM_TYPES indices (the model works on indices). -/
def compatIdx (a b : Nat) : Bool := compatiblePair (fromIdx a) (fromIdx b)

/-! ## The per-edge connection table (temple_solver.py lines 820-834)

For each adjacent cell pair the model adds an AddAllowedAssignments table over
(type_a, type_b, both_in_temple, edge): for every pair of type indices the
tuple (a, b, 0, 0) is allowed, and (a, b, 1, e) is allowed with e = 1 exactly
when the types are compatible. -/

def connectionTuples : List (Nat × Nat × Nat × Nat) :=
  (List.range 16).flatMap fun a =>
    (List.range 16).flatMap fun b =>
      [(a, b, 0, 0), (a, b, 1, if compatIdx a b then 1 else 0)]

def boolToNat (b : Bool) : Nat := if b then 1 else 0

/-- The constraints the model places on one adjacent pair, as satisfied by an
assignment: the reified both_in_temple = in_temple[a] AND in_temple[b]
(AddBoolAnd/AddBoolOr, lines 808-810), the implication "not both in temple
implies no edge" (line 813), and membership of the 4-tuple in the allowed
assignments table (lines 831-834). -/
def edgeConstraintSat (inA inB bothIn edge : Bool) (ta tb : RoomType) : Prop :=
  (bothIn = (inA && inB)) ∧
  (bothIn = false → edge = false) ∧
  (toIdx ta, toIdx tb, boolToNat bothIn, boolToNat edge) ∈ connectionTuples


instance (inA inB bothIn edge : Bool) (ta tb : RoomType) :
    Decidable (edgeConstraintSat inA inB bothIn edge ta tb) := by
  unfold edgeConstraintSat; infer_instance

/-! ## Grid (GRID_SIZE = 9, FOYER_POS = (5, 1), 1-indexed) -/

abbrev GPos := Nat × Nat

def FOYER_POS : GPos := (5, 1)

def gridCells : List GPos :=
  (List.range 9).flatMap fun i => (List.range 9).map fun j => (i + 1, j + 1)

/-- get_neighbors: the in-grid orthogonal neighbours of a cell (1-indexed). -/
def getNeighbors (p : GPos) : List GPos :=
  ([(p.1 - 1, p.2), (p.1 + 1, p.2), (p.1, p.2 - 1), (p.1, p.2 + 1)]).filter
    fun q => 1 ≤ q.1 ∧ q.1 ≤ 9 ∧ 1 ≤ q.2 ∧ q.2 ≤ 9

/-! ## Solution layouts

A solution assigns each cell a room type and tier.  In every assignment that
satisfies the model's basic constraints, in_temple[p] is equivalent to
room_type[p] different from EMPTY (lines 738-742), and the table constraint
forces each edge variable to equal "both endpoints in temple and types
compatible"; we therefore represent a solution by its type/tier maps and derive
in_temple, edges and degrees. -/

structure Layout where
  roomType : GPos → RoomType
  tier : GPos → Nat

def inTemple (L : Layout) (p : GPos) : Bool := L.roomType p ≠ EMPTY

/-- An active auto-connection between two (assumed grid-adjacent) cells. -/
def edgeActive (L : Layout) (p q : GPos) : Bool :=
  inTemple L p && inTemple L q && compatiblePair (L.roomType p) (L.roomType q)

/-- Active-edge degree of a cell: number of grid neighbours with an active
connection (num_connections, lines 1187-1190). -/
def degree (L : Layout) (p : GPos) : Nat :=
  (getNeighbors p).countP fun q => edgeActive L p q

/-! ## Solver input (the fields of SolverInput that the claims touch) -/

structure SolverInput where
  architect_pos : GPos
  snake_mode : Bool
  junction_penalty : Int
  empty_penalty : Int
  min_spymasters : Nat
  min_corruption_chambers : Nat
  max_paths : Nat

/-- ROOM_VALUES (lines 182-199): value per type and tier index 0..2. -/
def roomValues (r : RoomType) : List Int :=
  match r with
  | EMPTY => [0, 0, 0]
  | PATH => [1, 1, 1]
  | GARRISON => [8, 12, 18]
  | SPYMASTER => [20, 35, 50]
  | COMMANDER => [12, 20, 35]
  | ARMOURY => [10, 18, 28]
  | ALCHEMY_LAB => [14, 24, 40]
  | SMITHY => [12, 22, 38]
  | CORRUPTION_CHAMBER => [25, 45, 70]
  | SACRIFICIAL_CHAMBER => [30, 50, 80]
  | THAUMATURGE => [15, 30, 50]
  | GENERATOR => [10, 18, 30]
  | GOLEM_WORKS => [8, 14, 22]
  | FLESH_SURGEON => [15, 28, 45]
  | SYNTHFLESH => [10, 18, 28]
  | LEGION_BARRACKS => [12, 22, 35]

/-- The value table per cell (value_tuples, lines 1540-1549): EMPTY or tier 0
contribute 0, otherwise the per-type value at tier-1. -/
def cellValue (r : RoomType) (t : Nat) : Int :=
  if r = EMPTY ∨ t = 0 then 0 else (roomValues r).getD (t - 1) 0

/-- The non-fixed cells: every grid cell other than the foyer and the
architect (the objective and penalties skip the two fixed positions). -/
def nonFixedCells (inp : SolverInput) : List GPos :=
  gridCells.filter fun p => p ≠ FOYER_POS ∧ p ≠ inp.architect_pos

/-- total_value: sum of cell values over non-fixed cells (lines 1524-1553). -/
def totalValue (inp : SolverInput) (L : Layout) : Int :=
  ((nonFixedCells inp).map fun p => cellValue (L.roomType p) (L.tier p)).sum

/-- Junction count as the model counts it: non-fixed cells whose active-edge
degree is at least 3 (is_junction, lines 1570-1572, over connection_counts
which ranges over non-fixed cells, lines 1172-1190). -/
def junctionCount (inp : SolverInput) (L : Layout) : Nat :=
  (nonFixedCells inp).countP fun p => 3 ≤ degree L p

/-- The cells subject to the empty penalty: everything except the foyer, the
architect and the architect's grid neighbours (lines 1596-1602). -/
def emptyPenaltyCells (inp : SolverInput) : List GPos :=
  gridCells.filter fun p =>
    p ≠ FOYER_POS ∧ p ≠ inp.architect_pos ∧ p ∉ getNeighbors inp.architect_pos

/-- Count of penalised empty cells (is_empty, lines 1603-1606). -/
def emptyCount (inp : SolverInput) (L : Layout) : Nat :=
  (emptyPenaltyCells inp).countP fun p => inTemple L p = false

/-- Auxiliary objective variables of one assignment: the reified is_junction
and is_empty booleans and the three objective terms. -/
structure ObjAssign where
  isJunction : GPos → Bool
  isEmptyCell : GPos → Bool
  totalJunction : Int
  totalEmpty : Int
  totalVal : Int
  finalScore : Int

/-- The objective-related constraints of the model, as satisfied by an
assignment (temple_solver.py lines 1560-1615):
* is_junction variables exist only when snake_mode is on and junction_penalty
  is positive (lines 1565-1574), in which case each one is tied to
  "3 or more active connections" and junction_penalty times their sum is the
  junction total (line 1585); otherwise the junction total is pinned to 0
  (line 1587);
* is_empty variables exist only when empty_penalty is positive
  (lines 1594-1607), tied to "not in temple" over the penalised cells, with
  empty_penalty times their sum as the empty total; otherwise 0 (line 1610);
* total_value is the sum of the cell value table entries (line 1553), and the
  maximised final_score is total_value minus both totals (line 1614). -/
def objConstraintsSat (inp : SolverInput) (L : Layout) (a : ObjAssign) : Prop :=
  (inp.snake_mode = true → 0 < inp.junction_penalty →
    (∀ p ∈ nonFixedCells inp, a.isJunction p = true ↔ 3 ≤ degree L p) ∧
    a.totalJunction =
      inp.junction_penalty * ((nonFixedCells inp).countP fun p => a.isJunction p)) ∧
  ((inp.snake_mode = false ∨ inp.junction_penalty ≤ 0) → a.totalJunction = 0) ∧
  (0 < inp.empty_penalty →
    (∀ p ∈ emptyPenaltyCells inp, a.isEmptyCell p = true ↔ inTemple L p = false) ∧
    a.totalEmpty =
      inp.empty_penalty * ((emptyPenaltyCells inp).countP fun p => a.isEmptyCell p)) ∧
  (inp.empty_penalty ≤ 0 → a.totalEmpty = 0) ∧
  a.totalVal = totalValue inp L ∧
  a.finalScore = a.totalVal - a.totalJunction - a.totalEmpty

/-- The claim's reading of the junction term: junction_penalty times the number
of in-temple cells (anywhere on the grid) with active-edge degree at least 3.
Stated from the claim's words, for comparison with the model's term. -/
def claimJunctionCount (L : Layout) : Nat :=
  gridCells.countP fun p => inTemple L p = true ∧ 3 ≤ degree L p

/-! ## Extraction of a solution (SolutionCallback._extract_solution and the
final extraction in solve_temple): in-temple cells other than the two fixed
positions are listed as paths (type PATH) or rooms (any other type). -/

def extractRoomCells (inp : SolverInput) (L : Layout) : List GPos :=
  (nonFixedCells inp).filter fun p =>
    inTemple L p = true ∧ L.roomType p ≠ PATH

def extractPathCells (inp : SolverInput) (L : Layout) : List GPos :=
  (nonFixedCells inp).filter fun p =>
    inTemple L p = true ∧ L.roomType p = PATH

/-- A cell reads as in-temple from a returned solution record when it is one of
the listed rooms or paths, or one of the two pinned path cells. -/
def outputInTemple (inp : SolverInput) (L : Layout) (p : GPos) : Prop :=
  p ∈ extractRoomCells inp L ∨ p ∈ extractPathCells inp L ∨
    p = FOYER_POS ∨ p = inp.architect_pos

instance (inp : SolverInput) (L : Layout) (p : GPos) :
    Decidable (outputInTemple inp L p) := by
  unfold outputInTemple; infer_instance

/-- The architect pinning and neighbour-count constraints of the model
(lines 722-725 and 933-938): the architect cell is an in-temple PATH and the
number of its grid neighbours that are in temple is exactly one.  The foyer
pinning (lines 717-720) is included since extraction treats it as in temple. -/
def architectConstraintsSat (inp : SolverInput) (L : Layout) : Prop :=
  L.roomType FOYER_POS = PATH ∧
  L.roomType inp.architect_pos = PATH ∧
  ((getNeighbors inp.architect_pos).countP fun n => inTemple L n) = 1


instance (inp : SolverInput) (L : Layout) (a : ObjAssign) :
    Decidable (objConstraintsSat inp L a) := by
  unfold objConstraintsSat; infer_instance

instance (inp : SolverInput) (L : Layout) :
    Decidable (architectConstraintsSat inp L) := by
  unfold architectConstraintsSat; infer_instance

/-! ## Post-solve directional validator (validate_spy_cmd_constraint,
temple_solver.py lines 284-377)

The validator works on the extracted solution: a list of rooms (type plus
position) and a list of undirected edges.  Positions are integer pairs as in
the JSON records. -/

abbrev VPos := Int × Int

structure VRoom where
  rtype : RoomType
  x : Int
  y : Int
deriving DecidableEq, Repr

structure VEdge where
  src : VPos
  dst : VPos
deriving DecidableEq, Repr

/-- The adjacency sets of the edge-induced graph (both directions of every
edge are inserted into per-vertex sets); a deduplicated list stands for the
Python set. -/
def nbrs (edges : List VEdge) (v : VPos) : List VPos :=
  (((edges.filter fun e => e.src = v).map fun e => e.dst) ++
    ((edges.filter fun e => e.dst = v).map fun e => e.src)).dedup

/-- The vertices mentioned by at least one edge (the keys of the graph). -/
def vertexSet (edges : List VEdge) : List VPos :=
  ((edges.map fun e => e.src) ++ (edges.map fun e => e.dst)).dedup

/-- room_types: position-to-type map; a later list entry overwrites an
earlier one at the same position, as in the Python dict build. -/
def roomTypeAt (rooms : List VRoom) (p : VPos) : Option RoomType :=
  ((rooms.filter fun r => ((r.x, r.y) : VPos) = p).getLast?).map fun r => r.rtype

/-- The distinct room positions (the keys of room_types). -/
def roomPositions (rooms : List VRoom) : List VPos :=
  (rooms.map fun r => ((r.x, r.y) : VPos)).dedup

/-- cmd_positions: positions typed COMMANDER. -/
def cmdPositions (rooms : List VRoom) : List VPos :=
  (roomPositions rooms).filter fun p => roomTypeAt rooms p = some COMMANDER

def isSpyAt (rooms : List VRoom) (p : VPos) : Bool :=
  roomTypeAt rooms p = some SPYMASTER

/-- Association-list lookup for the BFS distance map. -/
def lookupD (d : List (VPos × Nat)) (p : VPos) : Option Nat :=
  (d.find? fun e => e.1 = p).map fun e => e.2

/-- One BFS expansion: give every not-yet-labelled neighbour of the current
vertex distance dc + 1 and append it to the queue. -/
def distExpand (g : VPos → List VPos) (c : VPos) (dc : Nat)
    (d : List (VPos × Nat)) (q : List VPos) : List (VPos × Nat) × List VPos :=
  (g c).foldl
    (fun acc n => if (lookupD acc.1 n).isSome then acc
                  else ((n, dc + 1) :: acc.1, acc.2 ++ [n]))
    (d, q)

/-- The foyer BFS loop (lines 324-332), with explicit fuel; every pop consumes
one unit and at most one unit is ever needed per labelled vertex. -/
def distLoop (g : VPos → List VPos) :
    Nat → List (VPos × Nat) → List VPos → List (VPos × Nat)
  | 0, d, _ => d
  | _ + 1, d, [] => d
  | fuel + 1, d, c :: rest =>
      let dc := (lookupD d c).getD 0
      let step := distExpand g c dc d rest
      distLoop g fuel step.1 step.2

def foyerV : VPos := (5, 1)

/-- distances: BFS labels from the foyer over the edge graph. -/
def distances (edges : List VEdge) : List (VPos × Nat) :=
  distLoop (nbrs edges) ((vertexSet edges).length + 2) [(foyerV, 0)] [foyerV]

def distOf (edges : List VEdge) (p : VPos) : Option Nat :=
  lookupD (distances edges) p

/-- distances.get(v, 0): missing labels read as 0, as in the source. -/
def distGetD (dist : VPos → Option Nat) (v : VPos) : Nat := (dist v).getD 0

/-- The neighbours a search step may move to: not yet visited and strictly
farther from the foyer than the current vertex (lines 349-357). -/
def eligNbrs (g : VPos → List VPos) (dist : VPos → Option Nat)
    (vis : Finset VPos) (c : VPos) : List VPos :=
  (g c).filter fun n => n ∉ vis ∧ distGetD dist c < distGetD dist n

/-- is_linear (lines 364-368): every vertex of the current path except the
commander head has at most two neighbours. -/
def linearOk (g : VPos → List VPos) (path : List VPos) : Bool :=
  (path.drop 1).all fun v => (g v).length ≤ 2

/-- The per-commander search loop (lines 342-375): a FIFO worklist of
(current, path) entries with a visited set.  When the current path is linear,
the first eligible SPYMASTER neighbour is returned as a violation; otherwise
eligible neighbours of degree exactly two are enqueued. -/
def searchLoop (g : VPos → List VPos) (dist : VPos → Option Nat)
    (isSpy : VPos → Bool) :
    Nat → List (VPos × List VPos) → Finset VPos → Option (List VPos)
  | 0, _, _ => none
  | _ + 1, [], _ => none
  | fuel + 1, (c, path) :: rest, vis =>
      let elig := eligNbrs g dist vis c
      match (if linearOk g path then elig.find? isSpy else none) with
      | some s => some (path ++ [s])
      | none =>
          let fresh := elig.filter fun n => (g n).length = 2
          searchLoop g dist isSpy fuel
            (rest ++ fresh.map fun n => (n, path ++ [n]))
            (vis ∪ fresh.toFinset)

/-- The search from one commander (lines 335-343): commanders that are not in
the graph or carry no foyer distance are skipped. -/
def searchFromCmd (rooms : List VRoom) (edges : List VEdge) (cmd : VPos) :
    Option (List VPos) :=
  if nbrs edges cmd = [] ∨ distOf edges cmd = none then none
  else searchLoop (nbrs edges) (distOf edges) (isSpyAt rooms)
    ((vertexSet edges).length + 2) [(cmd, [cmd])] {cmd}

/-- validate_spy_cmd_constraint: (True, None) when no commander finds a
violating chain, otherwise (False, the violating path). -/
def validateSpyCmd (rooms : List VRoom) (edges : List VEdge) :
    Bool × Option (List VPos) :=
  match (cmdPositions rooms).findSome? (searchFromCmd rooms edges) with
  | some p => (false, some p)
  | none => (true, none)

/-! ### Declarative description of a violation, in the claim's words -/

/-- v is strictly farther from the foyer than u, by BFS distance: both carry
labels and v's is larger. -/
def StrictlyFarther (dist : VPos → Option Nat) (u v : VPos) : Prop :=
  ∃ du dv, dist u = some du ∧ dist v = some dv ∧ du < dv

/-- One step of a violating path: an edge that moves strictly farther from
the foyer. -/
def FartherStep (edges : List VEdge) (u v : VPos) : Prop :=
  v ∈ nbrs edges u ∧ StrictlyFarther (distOf edges) u v

/-- A violating path: from a COMMANDER cell to a SPYMASTER cell, every step an
edge moving strictly farther from the foyer, every interior vertex (excluding
both endpoints) of degree exactly two in the edge graph. -/
def ViolatingPath (rooms : List VRoom) (edges : List VEdge)
    (l : List VPos) : Prop :=
  ∃ c mid s, l = c :: (mid ++ [s]) ∧
    roomTypeAt rooms c = some COMMANDER ∧
    roomTypeAt rooms s = some SPYMASTER ∧
    l.Chain' (FartherStep edges) ∧
    ∀ v ∈ mid, (nbrs edges v).length = 2

/-! ### Auxiliary notions for the validator proof -/

/-- One generic search step over an abstract graph and distance labelling. -/
def GStep (g : VPos → List VPos) (dist : VPos → Option Nat) (u v : VPos) :
    Prop :=
  v ∈ g u ∧ StrictlyFarther dist u v

/-- The chains the search loop can follow from a start vertex: steps to
unvisited neighbours that are strictly farther (by defaulted distance) and
have degree exactly two. -/
inductive ChainAvoid (g : VPos → List VPos) (dist : VPos → Option Nat)
    (vis : Finset VPos) (a : VPos) : VPos → Prop where
  | refl : ChainAvoid g dist vis a a
  | step : ∀ {u v : VPos}, ChainAvoid g dist vis a u → v ∈ g u →
      (dist u).getD 0 < (dist v).getD 0 → v ∉ vis → (g v).length = 2 →
      ChainAvoid g dist vis a v

/-- A spy sighting from u: a SPYMASTER neighbour strictly farther (by
defaulted distance) from the foyer. -/
def SpyAt (g : VPos → List VPos) (dist : VPos → Option Nat)
    (isSpy : VPos → Bool) (u : VPos) : Prop :=
  ∃ s, s ∈ g u ∧ (dist u).getD 0 < (dist s).getD 0 ∧ isSpy s = true

/-- The invariant of one queue entry of the search from cmd: the carried path
starts at cmd, ends at the entry's vertex, has a labelled endpoint, follows
strictly-farther graph steps, and all vertices after cmd have degree two. -/
def EntryOk (g : VPos → List VPos) (dist : VPos → Option Nat) (cmd : VPos)
    (e : VPos × List VPos) : Prop :=
  ∃ mid, e.2 = cmd :: mid ∧ e.2.getLast? = some e.1 ∧
    (dist e.1).isSome = true ∧
    e.2.Chain' (GStep g dist) ∧
    ∀ v ∈ mid, (g v).length = 2

/-! ## Solution callback (SolutionCallback, temple_solver.py lines 440-535)

The callback holds a solution counter, the best score so far (initialised to
-1), the best captured solution and a rejected counter.  On every solver
solution it increments the counter, reads the objective value, and, when the
objective improves on the best score, extracts the solution (whose score field
is read from self.best_score at extraction time), optionally validates it, and
either rejects it or records and streams it. -/

/-- The non-score parts of one extracted solution: what _extract_solution
reads from the current assignment. -/
structure ExtractedSol where
  rooms : List VRoom
  paths : List VPos
  edges : List VEdge
  chain_names : List String

/-- The streamed record {score, rooms, paths, edges, chain_names,
solution_count}. -/
structure SolRecord where
  score : Int
  rooms : List VRoom
  paths : List VPos
  edges : List VEdge
  chain_names : List String
  solution_count : Nat
deriving DecidableEq

structure CBState where
  solution_count : Nat
  best_score : Int
  best_solution : Option SolRecord
  rejected_count : Nat
deriving DecidableEq

/-- Initial callback state (lines 448-451). -/
def initCB : CBState :=
  { solution_count := 0, best_score := -1, best_solution := none,
    rejected_count := 0 }

/-- The extraction step _extract_solution (lines 479-535): the record's score
field is read from self.best_score, which at the moment of extraction still
holds the previous best score. -/
def extractRecord (st : CBState) (ext : ExtractedSol) : SolRecord :=
  { score := st.best_score
    rooms := ext.rooms
    paths := ext.paths
    edges := ext.edges
    chain_names := ext.chain_names
    solution_count := st.solution_count }

/-- on_solution_callback (lines 453-477): one callback invocation, given the
objective value obj of the solution and its extracted parts; returns the new
state and the record streamed to on_solution, if any. -/
def onSolutionStep (lazy : Bool) (st : CBState) (obj : Int)
    (ext : ExtractedSol) : CBState × Option SolRecord :=
  let st1 := { st with solution_count := st.solution_count + 1 }
  if st1.best_score < obj then
    let rec1 := extractRecord st1 ext
    if lazy && ((validateSpyCmd ext.rooms ext.edges).1 = false) then
      ({ st1 with rejected_count := st1.rejected_count + 1 }, none)
    else
      ({ st1 with best_score := obj, best_solution := some rec1 }, some rec1)
  else
    (st1, none)

/-! ## Job orchestration (server_prod.py)

All job-state mutation happens under a single lock; we model the job map entry
for one job as a status value and the lock-guarded mutations as an atomic step
relation. -/

inductive JStatus where
  | queued
  | solving
  | complete
  | error
  | aborted
deriving DecidableEq, Repr

def terminalStatus (s : JStatus) : Prop :=
  s = JStatus.complete ∨ s = JStatus.error ∨ s = JStatus.aborted

/-- The lock-guarded status mutations of one job in server_prod.py:
* pickup (worker_thread lines 206-215): a dequeued job still in "queued" is
  flipped to "solving"; any other status is skipped;
* abortQueued / abortSolving (abort_job lines 473-483): abort succeeds on any
  non-terminal status and flips it to "aborted";
* completeFinal (lines 297-308): when the worker's local aborted flag is
  false it stores the result and sets "complete" without re-checking the
  status, so an abort that lands after the solver subprocess exits but before
  finalization is overwritten; at that point the status is "solving" or
  "aborted";
* errorFinal (lines 277-283): a subprocess-reported error sets "error",
  likewise without re-checking the status;
* crashFinal (lines 286-293): a crashed subprocess sets "error" only if the
  status is still "solving";
* abortFinalize (lines 299-303): an observed abort keeps the "aborted"
  status and records the last best-so-far. -/
inductive JobStep : JStatus → JStatus → Prop where
  | pickup : JobStep JStatus.queued JStatus.solving
  | abortQueued : JobStep JStatus.queued JStatus.aborted
  | abortSolving : JobStep JStatus.solving JStatus.aborted
  | completeFromSolving : JobStep JStatus.solving JStatus.complete
  | completeFromAborted : JobStep JStatus.aborted JStatus.complete
  | errorFromSolving : JobStep JStatus.solving JStatus.error
  | errorFromAborted : JobStep JStatus.aborted JStatus.error
  | crashFinal : JobStep JStatus.solving JStatus.error
  | abortFinalize : JobStep JStatus.aborted JStatus.aborted

/-- A job's status paired with "a solver subprocess has been created for it".
The subprocess is created only on pickup (lines 225-229, directly after the
queued-to-solving flip). -/
def WStep : JStatus × Bool → JStatus × Bool → Prop := fun a b =>
  JobStep a.1 b.1 ∧
    b.2 = (a.2 || (decide (a.1 = JStatus.queued) && decide (b.1 = JStatus.solving)))

/-! ## Admission (server_prod.py /solve route and rate limiting) -/

abbrev ClientIP := Nat

abbrev JobId := Nat

structure JobRec where
  status : JStatus
  client : ClientIP
deriving DecidableEq

structure ServerConfig where
  rateLimitSeconds : Rat
  maxQueueSize : Nat

structure ServerState where
  jobs : List (JobId × JobRec)
  jobQueue : List JobId
  ipLastSolve : List (ClientIP × Rat)
  nextId : JobId
deriving DecidableEq

/-- A parsed request body; none stands for a missing or architect-less JSON
body. -/
structure SolveReq where
  architect : Int × Int

inductive SolveResponse where
  | rateLimited (retryAfter : Int)
  | queueFull
  | badRequest
  | accepted (jobId : JobId)
deriving DecidableEq

def lookupIP (m : List (ClientIP × Rat)) (ip : ClientIP) : Option Rat :=
  (m.find? fun e => e.1 = ip).map fun e => e.2

/-- check_rate_limit (lines 91-99): allowed unless the same IP submitted less
than RATE_LIMIT_SECONDS ago; on rejection, the remaining wait is returned. -/
def checkRateLimit (cfg : ServerConfig) (st : ServerState) (now : Rat)
    (ip : ClientIP) : Bool × Rat :=
  match lookupIP st.ipLastSolve ip with
  | some last =>
      if now - last < cfg.rateLimitSeconds then
        (false, cfg.rateLimitSeconds - (now - last))
      else (true, 0)
  | none => (true, 0)

/-- record_rate_limit (lines 102-109): remember the submission time (the
bounded-cache eviction is not modelled). -/
def recordRateLimit (st : ServerState) (now : Rat) (ip : ClientIP) :
    ServerState :=
  { st with ipLastSolve := (ip, now) :: (st.ipLastSolve.filter fun e => e.1 ≠ ip) }

/-- get_queue_length (lines 121-124): jobs whose status is queued. -/
def queueLength (st : ServerState) : Nat :=
  st.jobs.countP fun e => e.2.status = JStatus.queued

/-- The /solve route (lines 496-593): rate-limit check, then queue-capacity
check, then body validation, then job creation, rate-limit recording and
enqueue. -/
def solveRoute (cfg : ServerConfig) (st : ServerState) (now : Rat)
    (ip : ClientIP) (req : Option SolveReq) : ServerState × SolveResponse :=
  let rl := checkRateLimit cfg st now ip
  if rl.1 = false then
    (st, SolveResponse.rateLimited rl.2.floor)
  else if cfg.maxQueueSize ≤ queueLength st then
    (st, SolveResponse.queueFull)
  else
    match req with
    | none => (st, SolveResponse.badRequest)
    | some _ =>
        let jid := st.nextId
        let st1 := recordRateLimit st now ip
        let st2 :=
          { st1 with
            jobs := st1.jobs ++ [(jid, { status := JStatus.queued, client := ip })]
            jobQueue := st1.jobQueue ++ [jid]
            nextId := st1.nextId + 1 }
        (st2, SolveResponse.accepted jid)

/-! ## Concrete example inputs used by witnesses and counterexamples -/

/-- A request with snake_mode off but a positive junction penalty. -/
def cInp : SolverInput :=
  { architect_pos := (5, 6), snake_mode := false, junction_penalty := 10,
    empty_penalty := 0, min_spymasters := 0, min_corruption_chambers := 0,
    max_paths := 10 }

def cPathCells : List GPos :=
  [(5, 1), (5, 2), (5, 3), (5, 4), (5, 5), (5, 6), (4, 3), (6, 3)]

/-- A path layout: a straight corridor from the foyer to the architect with a
junction of degree four at (5, 3). -/
def cL : Layout :=
  { roomType := fun p => if p ∈ cPathCells then PATH else EMPTY
    tier := fun p => if p ∈ cPathCells then 1 else 0 }

/-- The objective variables that satisfy the model on cInp and cL: no
is_junction variables exist (snake_mode is off), so the junction total is
pinned to zero. -/
def cA : ObjAssign :=
  { isJunction := fun _ => false, isEmptyCell := fun _ => false,
    totalJunction := 0, totalEmpty := 0,
    totalVal := totalValue cInp cL, finalScore := totalValue cInp cL }

/-- A commander at (5,2) with a spymaster directly behind it at (5,3): the
smallest violating configuration for the directional validator. -/
def vexRooms : List VRoom := [⟨COMMANDER, 5, 2⟩, ⟨SPYMASTER, 5, 3⟩]

def vexEdges : List VEdge := [⟨(5, 1), (5, 2)⟩, ⟨(5, 2), (5, 3)⟩]

def vexExt : ExtractedSol :=
  { rooms := vexRooms, paths := [], edges := vexEdges, chain_names := [] }

/-- An extracted solution with no rooms at all: it trivially passes the
directional validator. -/
def emptyExt : ExtractedSol :=
  { rooms := [], paths := [], edges := [], chain_names := [] }

def cCfg : ServerConfig := { rateLimitSeconds := 30, maxQueueSize := 10 }

/-- A server state in which client 7 last submitted at time 100. -/
def cSt : ServerState :=
  { jobs := [], jobQueue := [], ipLastSolve := [(7, 100)], nextId := 0 }

set_option maxRecDepth 40000

theorem fromIdx_toIdx (t : RoomType) : fromIdx (toIdx t) = t := by
  cases t <;> rfl

theorem mem_connectionTuples {a b bi e : Nat} :
    (a, b, bi, e) ∈ connectionTuples ↔
      a < 16 ∧ b < 16 ∧
        ((bi = 0 ∧ e = 0) ∨ (bi = 1 ∧ e = if compatIdx a b then 1 else 0)) := by
  simp only [connectionTuples, List.mem_flatMap, List.mem_range, List.mem_cons,
    List.mem_singleton, List.not_mem_nil, or_false, Prod.mk.injEq]
  constructor
  · rintro ⟨a', ha', b', hb', ⟨rfl, rfl, rfl, rfl⟩ | ⟨rfl, rfl, rfl, rfl⟩⟩
    · exact ⟨ha', hb', Or.inl ⟨rfl, rfl⟩⟩
    · exact ⟨ha', hb', Or.inr ⟨rfl, rfl⟩⟩
  · rintro ⟨ha, hb, ⟨rfl, rfl⟩ | ⟨rfl, rfl⟩⟩
    · exact ⟨a, ha, b, hb, Or.inl ⟨rfl, rfl, rfl, rfl⟩⟩
    · exact ⟨a, ha, b, hb, Or.inr ⟨rfl, rfl, rfl, rfl⟩⟩


theorem toIdx_lt_16 (t : RoomType) : toIdx t < 16 := by cases t <;> decide

/-- C1: the connection table ties (type_a, type_b, both_in_temple, edge)
tuples so that edge = 1 appears exactly for compatible pairs with
both_in_temple = 1, every tuple with both_in_temple = 0 has edge = 0, and
consequently any assignment satisfying the per-edge constraints has an active
edge iff both endpoints are in temple and their types are compatible. -/
theorem C1_connection_table :
    (∀ a b : Nat, a < 16 → b < 16 →
      (((a, b, 1, 1) ∈ connectionTuples) ↔ compatIdx a b = true) ∧
      ((a, b, 0, 0) ∈ connectionTuples) ∧
      (∀ e : Nat, (a, b, 0, e) ∈ connectionTuples → e = 0)) ∧
    (∀ (inA inB bothIn edge : Bool) (ta tb : RoomType),
      edgeConstraintSat inA inB bothIn edge ta tb →
      (edge = true ↔ inA = true ∧ inB = true ∧ compatiblePair ta tb = true)) := by
  constructor
  · intro a b ha hb
    refine ⟨?_, ?_, ?_⟩
    · rw [mem_connectionTuples]
      constructor
      · rintro ⟨-, -, ⟨h, -⟩ | ⟨-, h⟩⟩
        · exact absurd h one_ne_zero
        · by_contra hc
          rw [Bool.not_eq_true] at hc
          rw [hc] at h
          exact one_ne_zero h
      · intro h
        exact ⟨ha, hb, Or.inr ⟨rfl, by simp [h]⟩⟩
    · rw [mem_connectionTuples]
      exact ⟨ha, hb, Or.inl ⟨rfl, rfl⟩⟩
    · intro e he
      rw [mem_connectionTuples] at he
      rcases he with ⟨-, -, ⟨-, h⟩ | ⟨h, -⟩⟩
      · exact h
      · exact absurd h.symm one_ne_zero
  · intro inA inB bothIn edge ta tb hsat
    obtain ⟨hand, himp, hmem⟩ := hsat
    rw [mem_connectionTuples] at hmem
    have hcompat : compatIdx (toIdx ta) (toIdx tb) = compatiblePair ta tb := by
      unfold compatIdx
      rw [fromIdx_toIdx, fromIdx_toIdx]
    rw [hcompat] at hmem
    cases bothIn with
    | false =>
        have he : edge = false := himp rfl
        subst he
        have hA : (inA && inB) = false := hand.symm
        rw [Bool.and_eq_false_iff] at hA
        simp only [Bool.false_eq_true, false_iff]
        rintro ⟨h1, h2, -⟩
        rcases hA with h | h <;> simp_all
    | true =>
        have hA : inA = true ∧ inB = true := by
          have := hand.symm
          rw [Bool.and_eq_true] at this
          exact this
        rcases hmem with ⟨-, -, ⟨h0, -⟩ | ⟨-, h1⟩⟩
        · exact absurd h0 (by simp [boolToNat])
        · cases hc : compatiblePair ta tb
          · rw [hc] at h1
            have he : edge = false := by
              cases edge
              · rfl
              · exact absurd h1 (by simp [boolToNat])
            simp [he, hA.1, hA.2, hc]
          · rw [hc] at h1
            have he : edge = true := by
              cases edge
              · exact absurd h1 (by simp [boolToNat])
              · rfl
            simp [he, hA.1, hA.2, hc]


/-- Witness for C1 at concrete indices and a concrete satisfying
assignment. -/
theorem C1_witness :
    (((1 : Nat), (2 : Nat), (1 : Nat), (1 : Nat)) ∈ connectionTuples ↔
      compatIdx 1 2 = true) ∧
    (true = true ↔ (true = true ∧ true = true ∧ compatiblePair PATH GARRISON = true)) :=
  ⟨(C1_connection_table.1 1 2 (by decide) (by decide)).1,
   C1_connection_table.2 true true true true PATH GARRISON (by decide)⟩

/-- C2: the model's adjacency-compatibility relation: PATH is compatible with
exactly the non-EMPTY types, EMPTY with nothing, typed rooms exactly per the
symmetrised catalogue pairs, and the relation is symmetric. -/
theorem C2_compat_relation :
    (∀ t : RoomType, (compatiblePair PATH t = true ↔ t ≠ EMPTY) ∧
      (compatiblePair t PATH = true ↔ t ≠ EMPTY)) ∧
    (∀ t : RoomType, compatiblePair EMPTY t = false ∧ compatiblePair t EMPTY = false) ∧
    (∀ t u : RoomType, t ≠ PATH → t ≠ EMPTY → u ≠ PATH → u ≠ EMPTY →
      (compatiblePair t u = true ↔ (t, u) ∈ validAdjacencyPairs)) ∧
    (∀ t u : RoomType, compatiblePair t u = compatiblePair u t) := by
  refine ⟨?_, ?_, ?_, ?_⟩ <;> decide

/-- Witness for C2's catalogue clause at a concrete typed pair. -/
theorem C2_witness :
    compatiblePair GARRISON COMMANDER = true ↔
      (GARRISON, COMMANDER) ∈ validAdjacencyPairs :=
  C2_compat_relation.2.2.1 GARRISON COMMANDER
    (by decide) (by decide) (by decide) (by decide)


/-- C3 (amended): in every assignment satisfying the objective constraints,
the junction term equals junction_penalty times the count of non-fixed cells
of degree at least 3 when snake_mode is on and the penalty positive and is 0
otherwise (in particular whenever snake_mode is off), the empty term equals
empty_penalty times the count of penalised empty cells when the penalty is
positive and 0 otherwise, and the maximised score is total_value minus both
terms. -/
theorem C3_objective_terms :
    ∀ (inp : SolverInput) (L : Layout) (a : ObjAssign),
      objConstraintsSat inp L a →
      a.totalJunction =
        (if inp.snake_mode = true ∧ 0 < inp.junction_penalty
          then inp.junction_penalty * (junctionCount inp L : Int) else 0) ∧
      a.totalEmpty =
        (if 0 < inp.empty_penalty
          then inp.empty_penalty * (emptyCount inp L : Int) else 0) ∧
      a.finalScore = totalValue inp L - a.totalJunction - a.totalEmpty := by
  intro inp L a hsat
  obtain ⟨hj, hj0, he, he0, hv, hf⟩ := hsat
  refine ⟨?_, ?_, ?_⟩
  · by_cases hs : inp.snake_mode = true ∧ 0 < inp.junction_penalty
    · rw [if_pos hs]
      obtain ⟨hiff, heq⟩ := hj hs.1 hs.2
      rw [heq]
      congr 1
      norm_cast
      unfold junctionCount
      apply List.countP_congr
      intro p hp
      have := hiff p hp
      constructor
      · intro h
        exact decide_eq_true (this.mp h)
      · intro h
        exact this.mpr (of_decide_eq_true h)
    · rw [if_neg hs]
      apply hj0
      rcases Decidable.not_and_iff_or_not.mp hs with h | h
      · exact Or.inl (Bool.not_eq_true _ ▸ h)
      · exact Or.inr (le_of_not_lt h)
  · by_cases hep : 0 < inp.empty_penalty
    · rw [if_pos hep]
      obtain ⟨hiff, heq⟩ := he hep
      rw [heq]
      congr 1
      norm_cast
      unfold emptyCount
      apply List.countP_congr
      intro p hp
      have := hiff p hp
      constructor
      · intro h
        exact decide_eq_true (this.mp h)
      · intro h
        exact this.mpr (of_decide_eq_true h)
    · rw [if_neg hep]
      exact he0 (le_of_not_lt hep)
  · rw [hf, hv]

/-- Counterexample to C3 as stated: with snake_mode off and
junction_penalty = 10, a satisfying assignment with an in-temple cell of
degree 4 has junction total 0, not junction_penalty times the in-temple
junction count. -/
theorem C3_counterexample :
    objConstraintsSat cInp cL cA ∧
    0 < cInp.junction_penalty ∧
    cA.totalJunction ≠ cInp.junction_penalty * (claimJunctionCount cL : Int) := by
  refine ⟨by decide, by decide, by decide⟩

/-- Witness for C3's amended theorem at the concrete request, layout and
assignment. -/
theorem C3_witness :
    cA.totalJunction =
      (if cInp.snake_mode = true ∧ 0 < cInp.junction_penalty
        then cInp.junction_penalty * (junctionCount cInp cL : Int) else 0) ∧
    cA.totalEmpty =
      (if 0 < cInp.empty_penalty
        then cInp.empty_penalty * (emptyCount cInp cL : Int) else 0) ∧
    cA.finalScore = totalValue cInp cL - cA.totalJunction - cA.totalEmpty :=
  C3_objective_terms cInp cL cA (by decide)

theorem mem_gridCells {p : GPos} :
    p ∈ gridCells ↔ 1 ≤ p.1 ∧ p.1 ≤ 9 ∧ 1 ≤ p.2 ∧ p.2 ≤ 9 := by
  unfold gridCells
  simp only [List.mem_flatMap, List.mem_range, List.mem_map]
  constructor
  · rintro ⟨i, hi, j, hj, rfl⟩
    simp only
    omega
  · rintro ⟨h1, h2, h3, h4⟩
    refine ⟨p.1 - 1, by omega, p.2 - 1, by omega, ?_⟩
    rw [Prod.ext_iff]
    constructor <;> simp <;> omega

theorem mem_gridCells_of_neighbor {p q : GPos} (h : q ∈ getNeighbors p) :
    q ∈ gridCells := by
  unfold getNeighbors at h
  rw [List.mem_filter] at h
  rw [mem_gridCells]
  have := of_decide_eq_true h.2
  exact this

theorem outputInTemple_iff (inp : SolverInput) (L : Layout)
    (hfoyer : L.roomType FOYER_POS = PATH)
    (harch : L.roomType inp.architect_pos = PATH)
    {n : GPos} (hn : n ∈ gridCells) :
    outputInTemple inp L n ↔ inTemple L n = true := by
  constructor
  · intro h
    rcases h with h | h | h | h
    · unfold extractRoomCells at h
      rw [List.mem_filter] at h
      exact (of_decide_eq_true h.2).1
    · unfold extractPathCells at h
      rw [List.mem_filter] at h
      exact (of_decide_eq_true h.2).1
    · subst h
      simp [inTemple, hfoyer]
    · subst h
      simp [inTemple, harch]
  · intro h
    by_cases hf : n = FOYER_POS
    · exact Or.inr (Or.inr (Or.inl hf))
    · by_cases ha : n = inp.architect_pos
      · exact Or.inr (Or.inr (Or.inr ha))
      · have hnf : n ∈ nonFixedCells inp := by
          unfold nonFixedCells
          rw [List.mem_filter]
          exact ⟨hn, decide_eq_true ⟨hf, ha⟩⟩
        by_cases hp : L.roomType n = PATH
        · refine Or.inr (Or.inl ?_)
          unfold extractPathCells
          rw [List.mem_filter]
          exact ⟨hnf, decide_eq_true ⟨h, hp⟩⟩
        · refine Or.inl ?_
          unfold extractRoomCells
          rw [List.mem_filter]
          exact ⟨hnf, decide_eq_true ⟨h, hp⟩⟩

/-- C9: in every layout satisfying the pinning and architect constraints,
exactly one grid neighbour of the architect reads as in-temple from the
returned solution record. -/
theorem C9_architect_one_neighbor :
    ∀ (inp : SolverInput) (L : Layout),
      architectConstraintsSat inp L →
      ((getNeighbors inp.architect_pos).countP
        fun n => decide (outputInTemple inp L n)) = 1 := by
  intro inp L h
  obtain ⟨hfoyer, harch, hcount⟩ := h
  rw [← hcount]
  apply List.countP_congr
  intro n hn
  have hiff := outputInTemple_iff inp L hfoyer harch (mem_gridCells_of_neighbor hn)
  constructor
  · intro hd
    exact hiff.mp (of_decide_eq_true hd)
  · intro ht
    exact decide_eq_true (hiff.mpr ht)

/-- Witness for C9 at a concrete satisfying layout. -/
theorem C9_witness :
    ((getNeighbors cInp.architect_pos).countP
      fun n => decide (outputInTemple cInp cL n)) = 1 :=
  C9_architect_one_neighbor cInp cL (by decide)

/-- C5 (code bug): evaluating the callback at best_score = -1 on an
improving solution of objective 5 that passes the lazy check streams a record
whose score field is -1, the previous best, not the carried solution's
objective 5. -/
theorem C5_streamed_score_is_stale :
    (onSolutionStep true initCB 5 emptyExt).2.map SolRecord.score = some (-1) ∧
    (onSolutionStep true initCB 5 emptyExt).1.best_score = 5 ∧
    ((-1 : Int) ≠ 5) := by
  refine ⟨by decide, by decide, by decide⟩

/-- Counterexample to C6 as stated: on a rejected improving solution the
solution counter also changes, so not only the rejected counter changes. -/
theorem C6_counterexample :
    (validateSpyCmd vexExt.rooms vexExt.edges).1 = false ∧
    initCB.best_score < 5 ∧
    (onSolutionStep true initCB 5 vexExt).1.solution_count ≠ initCB.solution_count := by
  refine ⟨by decide, by decide, by decide⟩

/-- C6 (amended): when the lazy check is on and an improving solution fails
validation, best_score and best_solution are unchanged and nothing is
streamed; the rejected counter and the solution counter both increment. -/
theorem C6_reject_frame :
    ∀ (st : CBState) (obj : Int) (ext : ExtractedSol),
      st.best_score < obj →
      (validateSpyCmd ext.rooms ext.edges).1 = false →
      (onSolutionStep true st obj ext).1.best_score = st.best_score ∧
      (onSolutionStep true st obj ext).1.best_solution = st.best_solution ∧
      (onSolutionStep true st obj ext).2 = none ∧
      (onSolutionStep true st obj ext).1.rejected_count = st.rejected_count + 1 ∧
      (onSolutionStep true st obj ext).1.solution_count = st.solution_count + 1 := by
  intro st obj ext himp hval
  unfold onSolutionStep
  simp [himp, hval]

/-- Witness for C6's amended theorem at the concrete rejecting solution. -/
theorem C6_witness :
    (onSolutionStep true initCB 5 vexExt).1.best_score = initCB.best_score ∧
    (onSolutionStep true initCB 5 vexExt).1.best_solution = initCB.best_solution ∧
    (onSolutionStep true initCB 5 vexExt).2 = none ∧
    (onSolutionStep true initCB 5 vexExt).1.rejected_count = initCB.rejected_count + 1 ∧
    (onSolutionStep true initCB 5 vexExt).1.solution_count = initCB.solution_count + 1 :=
  C6_reject_frame initCB 5 vexExt (by decide) (by decide)

/-- C7: a submit inside the rate-limit window is rejected with a RateLimited
response carrying retry_after, and leaves the job map, the queue, the
rate-limit map, and the queued count unchanged. -/
theorem C7_rate_limited_rejection :
    ∀ (cfg : ServerConfig) (st : ServerState) (now : Rat) (ip : ClientIP)
      (req : Option SolveReq) (last : Rat),
      lookupIP st.ipLastSolve ip = some last →
      now - last < cfg.rateLimitSeconds →
      (solveRoute cfg st now ip req).1 = st ∧
      (solveRoute cfg st now ip req).2 =
        SolveResponse.rateLimited (cfg.rateLimitSeconds - (now - last)).floor ∧
      (solveRoute cfg st now ip req).1.jobs = st.jobs ∧
      (solveRoute cfg st now ip req).1.jobQueue = st.jobQueue ∧
      (solveRoute cfg st now ip req).1.ipLastSolve = st.ipLastSolve ∧
      queueLength (solveRoute cfg st now ip req).1 = queueLength st := by
  intro cfg st now ip req last hlk hlt
  have hroute : solveRoute cfg st now ip req =
      (st, SolveResponse.rateLimited (cfg.rateLimitSeconds - (now - last)).floor) := by
    unfold solveRoute checkRateLimit
    rw [hlk]
    simp [hlt]
  rw [hroute]
  exact ⟨rfl, rfl, rfl, rfl, rfl, rfl⟩

/-- Witness for C7 at a concrete server state and submission time. -/
theorem C7_witness :
    (solveRoute cCfg cSt 100 7 none).1 = cSt ∧
    (solveRoute cCfg cSt 100 7 none).2 =
      SolveResponse.rateLimited
        (cCfg.rateLimitSeconds - ((100 : Rat) - 100)).floor ∧
    (solveRoute cCfg cSt 100 7 none).1.jobs = cSt.jobs ∧
    (solveRoute cCfg cSt 100 7 none).1.jobQueue = cSt.jobQueue ∧
    (solveRoute cCfg cSt 100 7 none).1.ipLastSolve = cSt.ipLastSolve ∧
    queueLength (solveRoute cCfg cSt 100 7 none).1 = queueLength cSt :=
  C7_rate_limited_rejection cCfg cSt 100 7 none 100 rfl
    (by rw [sub_self]; decide)

/-- Counterexample to C8 as stated: abort moves a job from Queued straight
to the terminal status Aborted, so a terminal status is not reached only from
Solving. -/
theorem C8_counterexample :
    JobStep JStatus.queued JStatus.aborted ∧
    terminalStatus JStatus.aborted ∧
    JStatus.queued ≠ JStatus.solving :=
  ⟨JobStep.abortQueued, Or.inr (Or.inr rfl), by decide⟩

/-- C8 (amended): no step re-enters Queued or leaves Complete or Error;
Solving is entered only from Queued; Aborted is entered from Queued or
Solving (or kept); Complete and Error are entered from Solving, or from
Aborted when a worker finalization races an abort. -/
theorem C8_status_transitions :
    ∀ s t : JStatus, JobStep s t →
      t ≠ JStatus.queued ∧ s ≠ JStatus.complete ∧ s ≠ JStatus.error ∧
      (t = JStatus.solving → s = JStatus.queued) ∧
      (t = JStatus.aborted →
        s = JStatus.queued ∨ s = JStatus.solving ∨ s = JStatus.aborted) ∧
      ((t = JStatus.complete ∨ t = JStatus.error) →
        s = JStatus.solving ∨ s = JStatus.aborted) := by
  intro s t h
  cases h <;> refine ⟨by decide, by decide, by decide, ?_, ?_, ?_⟩ <;> intro h2 <;>
    first
      | exact absurd h2 (by decide)
      | decide

/-- Witness for C8's amended theorem at the pickup step. -/
theorem C8_witness :
    JStatus.solving ≠ JStatus.queued ∧ JStatus.queued ≠ JStatus.complete ∧
    JStatus.queued ≠ JStatus.error ∧
    (JStatus.solving = JStatus.solving → JStatus.queued = JStatus.queued) ∧
    (JStatus.solving = JStatus.aborted →
      JStatus.queued = JStatus.queued ∨ JStatus.queued = JStatus.solving ∨
        JStatus.queued = JStatus.aborted) ∧
    ((JStatus.solving = JStatus.complete ∨ JStatus.solving = JStatus.error) →
      JStatus.queued = JStatus.solving ∨ JStatus.queued = JStatus.aborted) :=
  C8_status_transitions JStatus.queued JStatus.solving JobStep.pickup

/-- C10: from an aborted job with no subprocess, every reachable state is
terminal: the status never becomes Solving (or Queued) and no solver
subprocess is ever created. -/
theorem C10_aborted_queued_never_starts :
    ∀ (s : JStatus) (p : Bool),
      Relation.ReflTransGen WStep (JStatus.aborted, false) (s, p) →
      s ≠ JStatus.solving ∧ s ≠ JStatus.queued ∧ p = false := by
  have key : ∀ x : JStatus × Bool,
      Relation.ReflTransGen WStep (JStatus.aborted, false) x →
      terminalStatus x.1 ∧ x.2 = false := by
    intro x h
    induction h with
    | refl => exact ⟨Or.inr (Or.inr rfl), rfl⟩
    | @tail b c h1 h2 ih =>
        obtain ⟨bs, bf⟩ := b
        obtain ⟨cs, cf⟩ := c
        obtain ⟨hstep, hflag⟩ := h2
        obtain ⟨hterm, hfl⟩ := ih
        have hterm2 : terminalStatus bs := hterm
        have hfl2 : bf = false := hfl
        subst hfl2
        constructor
        · rcases hterm2 with h | h | h <;> subst h <;> cases hstep <;>
            first
              | exact Or.inl rfl
              | exact Or.inr (Or.inl rfl)
              | exact Or.inr (Or.inr rfl)
        · have : cf = _ := hflag
          rw [this]
          rcases hterm2 with h | h | h <;> subst h <;> simp
  intro s p h
  obtain ⟨hterm, hfl⟩ := key (s, p) h
  have hterm2 : terminalStatus s := hterm
  have hfl2 : p = false := hfl
  refine ⟨?_, ?_, hfl2⟩
  · rcases hterm2 with h1 | h1 | h1 <;> subst h1 <;> decide
  · rcases hterm2 with h1 | h1 | h1 <;> subst h1 <;> decide

/-- Witness for C10 at the trivial reachability. -/
theorem C10_witness :
    JStatus.aborted ≠ JStatus.solving ∧ JStatus.aborted ≠ JStatus.queued ∧
    (false : Bool) = false :=
  C10_aborted_queued_never_starts JStatus.aborted false Relation.ReflTransGen.refl


theorem isSome_of_getD_lt {o1 o2 : Option Nat} (h : o1.getD 0 < o2.getD 0) :
    o2.isSome = true := by
  cases o2 with
  | none => simp at h
  | some v => rfl

theorem strictlyFarther_of_getD {dist : VPos → Option Nat} {u v : VPos}
    (hu : (dist u).isSome = true)
    (h : (dist u).getD 0 < (dist v).getD 0) :
    StrictlyFarther dist u v := by
  obtain ⟨du, hdu⟩ := Option.isSome_iff_exists.mp hu
  obtain ⟨dv, hdv⟩ := Option.isSome_iff_exists.mp (isSome_of_getD_lt h)
  refine ⟨du, dv, hdu, hdv, ?_⟩
  rw [hdu, hdv] at h
  exact h

theorem getD_of_strictlyFarther {dist : VPos → Option Nat} {u v : VPos}
    (h : StrictlyFarther dist u v) :
    (dist u).getD 0 < (dist v).getD 0 ∧ (dist u).isSome = true ∧
      (dist v).isSome = true := by
  obtain ⟨du, dv, hdu, hdv, hlt⟩ := h
  rw [hdu, hdv]
  exact ⟨hlt, rfl, rfl⟩

theorem mem_eligNbrs {g : VPos → List VPos} {dist : VPos → Option Nat}
    {vis : Finset VPos} {c n : VPos} :
    n ∈ eligNbrs g dist vis c ↔
      n ∈ g c ∧ n ∉ vis ∧ distGetD dist c < distGetD dist n := by
  unfold eligNbrs
  rw [List.mem_filter]
  constructor
  · rintro ⟨h1, h2⟩
    exact ⟨h1, of_decide_eq_true h2⟩
  · rintro ⟨h1, h2⟩
    exact ⟨h1, decide_eq_true h2⟩

theorem linearOk_of_deg2 {g : VPos → List VPos} {path : List VPos}
    (h : ∀ v ∈ path.drop 1, (g v).length = 2) :
    linearOk g path = true := by
  unfold linearOk
  rw [List.all_eq_true]
  intro v hv
  exact decide_eq_true (le_of_eq (h v hv))

theorem chain_head_lt {dist : VPos → Option Nat} :
    ∀ (x : VPos) (t : List VPos),
      (x :: t).Chain' (fun u v => (dist u).getD 0 < (dist v).getD 0) →
      ∀ v ∈ t, (dist x).getD 0 < (dist v).getD 0 := by
  intro x t
  induction t generalizing x with
  | nil => intro _ v hv; exact absurd hv (List.not_mem_nil v)
  | cons y t ih =>
      intro h v hv
      rw [List.chain'_cons] at h
      rcases List.mem_cons.mp hv with rfl | hv2
      · exact h.1
      · exact lt_trans h.1 (ih y h.2 v hv2)

theorem searchLoop_cons (g : VPos → List VPos) (dist : VPos → Option Nat)
    (isSpy : VPos → Bool) (fuel : Nat) (c : VPos) (path : List VPos)
    (rest : List (VPos × List VPos)) (vis : Finset VPos) :
    searchLoop g dist isSpy (fuel + 1) ((c, path) :: rest) vis =
      (match (if linearOk g path then (eligNbrs g dist vis c).find? isSpy
              else none) with
        | some s => some (path ++ [s])
        | none =>
            searchLoop g dist isSpy fuel
              (rest ++ (((eligNbrs g dist vis c).filter fun n =>
                  (g n).length = 2).map fun n => (n, path ++ [n])))
              (vis ∪ ((eligNbrs g dist vis c).filter fun n =>
                  (g n).length = 2).toFinset)) := rfl

theorem entryOk_fresh {g : VPos → List VPos} {dist : VPos → Option Nat}
    {cmd c n : VPos} {path : List VPos} {vis : Finset VPos}
    (he : EntryOk g dist cmd (c, path))
    (hn : n ∈ (eligNbrs g dist vis c).filter fun m => (g m).length = 2) :
    EntryOk g dist cmd (n, path ++ [n]) := by
  obtain ⟨mid, hpath0, hlast0, hsome0, hchain0, hmid⟩ := he
  have hpath : path = cmd :: mid := hpath0
  have hlast : path.getLast? = some c := hlast0
  have hsome : (dist c).isSome = true := hsome0
  have hchain : path.Chain' (GStep g dist) := hchain0
  rw [List.mem_filter] at hn
  obtain ⟨helig, hdeg⟩ := hn
  have hdeg2 : (g n).length = 2 := of_decide_eq_true hdeg
  rw [mem_eligNbrs] at helig
  obtain ⟨hmem, hnvis, hlt⟩ := helig
  refine ⟨mid ++ [n], ?_, ?_, ?_, ?_, ?_⟩
  · show path ++ [n] = cmd :: (mid ++ [n])
    rw [hpath]
    rfl
  · exact List.getLast?_concat _
  · exact isSome_of_getD_lt hlt
  · rw [List.chain'_append]
    refine ⟨hchain, List.chain'_singleton n, ?_⟩
    intro x hx y hy
    rw [hlast] at hx
    rw [Option.mem_some_iff] at hx
    subst hx
    rw [List.head?_cons, Option.mem_some_iff] at hy
    subst hy
    exact ⟨hmem, strictlyFarther_of_getD hsome hlt⟩
  · intro v hv
    rcases List.mem_append.mp hv with hv | hv
    · exact hmid v hv
    · rw [List.mem_singleton] at hv
      subst hv
      exact hdeg2

theorem searchLoop_sound {g : VPos → List VPos} {dist : VPos → Option Nat}
    {isSpy : VPos → Bool} {cmd : VPos} :
    ∀ (fuel : Nat) (q : List (VPos × List VPos)) (vis : Finset VPos)
      {l : List VPos},
      (∀ e ∈ q, EntryOk g dist cmd e) →
      searchLoop g dist isSpy fuel q vis = some l →
      ∃ mid s, l = cmd :: (mid ++ [s]) ∧ isSpy s = true ∧
        l.Chain' (GStep g dist) ∧ ∀ v ∈ mid, (g v).length = 2 := by
  intro fuel
  induction fuel with
  | zero =>
      intro q vis l _ h
      exact absurd h (by simp [searchLoop])
  | succ fuel ih =>
      intro q vis l hq h
      match q with
      | [] => exact absurd h (by simp [searchLoop])
      | (c, path) :: rest =>
          rw [searchLoop_cons] at h
          have he := hq _ (List.mem_cons_self _ _)
          obtain ⟨mid, hpath0, hlast0, hsome0, hchain0, hmid⟩ := he
          have hpath : path = cmd :: mid := hpath0
          have hlast : path.getLast? = some c := hlast0
          have hsome : (dist c).isSome = true := hsome0
          have hchain : path.Chain' (GStep g dist) := hchain0
          cases hfind : (if linearOk g path then
              (eligNbrs g dist vis c).find? isSpy else none) with
          | some s =>
              rw [hfind] at h
              simp only [Option.some.injEq] at h
              subst h
              have hfind2 : (eligNbrs g dist vis c).find? isSpy = some s := by
                by_cases hl : linearOk g path = true
                · rw [if_pos hl] at hfind
                  exact hfind
                · rw [if_neg hl] at hfind
                  exact absurd hfind (by simp)
              have hspy : isSpy s = true := List.find?_some hfind2
              have hmemelig := List.mem_of_find?_eq_some hfind2
              rw [mem_eligNbrs] at hmemelig
              obtain ⟨hmem, hnvis, hlt⟩ := hmemelig
              refine ⟨mid, s, ?_, hspy, ?_, hmid⟩
              · rw [hpath]
                rfl
              · rw [List.chain'_append]
                refine ⟨hchain, List.chain'_singleton s, ?_⟩
                intro x hx y hy
                rw [hlast] at hx
                rw [Option.mem_some_iff] at hx
                subst hx
                rw [List.head?_cons, Option.mem_some_iff] at hy
                subst hy
                exact ⟨hmem, strictlyFarther_of_getD hsome hlt⟩
          | none =>
              rw [hfind] at h
              refine ih _ _ ?_ h
              intro e hee
              rcases List.mem_append.mp hee with hee | hee
              · exact hq e (List.mem_cons_of_mem _ hee)
              · rw [List.mem_map] at hee
                obtain ⟨n, hn, rfl⟩ := hee
                exact entryOk_fresh (hq _ (List.mem_cons_self _ _)) hn

theorem chainAvoid_transfer {g : VPos → List VPos} {dist : VPos → Option Nat}
    {vis : Finset VPos} {fresh : List VPos} :
    ∀ {a u : VPos}, ChainAvoid g dist vis a u →
      (∃ x ∈ fresh, ChainAvoid g dist (vis ∪ fresh.toFinset) x u) ∨
      ChainAvoid g dist (vis ∪ fresh.toFinset) a u := by
  intro a u h
  induction h with
  | refl => exact Or.inr ChainAvoid.refl
  | step hch hmem hlt hnvis hdeg ih =>
      rename_i u' v
      by_cases hvf : v ∈ fresh
      · exact Or.inl ⟨v, hvf, ChainAvoid.refl⟩
      · have hnvis2 : v ∉ vis ∪ fresh.toFinset := by
          rw [Finset.mem_union]
          rintro (h | h)
          · exact hnvis h
          · exact hvf (List.mem_toFinset.mp h)
        rcases ih with ⟨x, hx, hch2⟩ | hch2
        · exact Or.inl ⟨x, hx, hch2.step hmem hlt hnvis2 hdeg⟩
        · exact Or.inr (hch2.step hmem hlt hnvis2 hdeg)

theorem chainAvoid_stuck {g : VPos → List VPos} {dist : VPos → Option Nat}
    {vis : Finset VPos} {fresh : List VPos} {c : VPos}
    (hclosed : ∀ v, v ∈ g c → (dist c).getD 0 < (dist v).getD 0 → v ∉ vis →
      (g v).length = 2 → v ∈ fresh) :
    ∀ {u : VPos}, ChainAvoid g dist (vis ∪ fresh.toFinset) c u → u = c := by
  intro u h
  induction h with
  | refl => rfl
  | step hch hmem hlt hnvis hdeg ih =>
      subst ih
      have hnv : _ ∉ vis := fun hx => hnvis (Finset.mem_union_left _ hx)
      have := hclosed _ hmem hlt hnv hdeg
      exact absurd (Finset.mem_union_right _ (List.mem_toFinset.mpr this)) hnvis

theorem card_sdiff_union {verts vis : Finset VPos} {fresh : List VPos}
    (hnd : fresh.Nodup) (hsub : ∀ x ∈ fresh, x ∈ verts)
    (hdisj : ∀ x ∈ fresh, x ∉ vis) :
    (verts \ (vis ∪ fresh.toFinset)).card + fresh.length =
      (verts \ vis).card := by
  have heq : verts \ (vis ∪ fresh.toFinset) =
      (verts \ vis) \ fresh.toFinset := by
    ext x
    simp only [Finset.mem_sdiff, Finset.mem_union]
    tauto
  rw [heq]
  have hsub2 : fresh.toFinset ⊆ verts \ vis := by
    intro x hx
    rw [List.mem_toFinset] at hx
    rw [Finset.mem_sdiff]
    exact ⟨hsub x hx, hdisj x hx⟩
  rw [Finset.card_sdiff hsub2]
  have hcard : fresh.toFinset.card = fresh.length := List.toFinset_card_of_nodup hnd
  rw [hcard]
  exact Nat.sub_add_cancel (le_trans (le_of_eq hcard.symm)
    (Finset.card_le_card hsub2))

theorem searchLoop_complete {g : VPos → List VPos} {dist : VPos → Option Nat}
    {isSpy : VPos → Bool} {cmd : VPos} {verts : Finset VPos}
    (hGsub : ∀ v w, w ∈ g v → w ∈ verts)
    (hGnodup : ∀ v, (g v).Nodup) :
    ∀ (fuel : Nat) (q : List (VPos × List VPos)) (vis : Finset VPos),
      q.length + (verts \ vis).card ≤ fuel →
      (∀ e ∈ q, EntryOk g dist cmd e) →
      (∀ v ∈ vis, isSpy v = false) →
      searchLoop g dist isSpy fuel q vis = none →
      ∀ u, (∃ e ∈ q, ChainAvoid g dist vis e.1 u) →
        ¬ SpyAt g dist isSpy u := by
  intro fuel
  induction fuel with
  | zero =>
      intro q vis hbud _ _ _ u hex
      have hq0 : q.length = 0 := Nat.eq_zero_of_le_zero
        (le_trans (Nat.le_add_right _ _) hbud)
      rw [List.length_eq_zero] at hq0
      subst hq0
      obtain ⟨e, he, -⟩ := hex
      exact absurd he (List.not_mem_nil e)
  | succ fuel ih =>
      intro q vis hbud hq hvisfree h u hex
      match q with
      | [] =>
          obtain ⟨e, he, -⟩ := hex
          exact absurd he (List.not_mem_nil e)
      | (c, path) :: rest =>
          have he0 := hq _ (List.mem_cons_self _ _)
          obtain ⟨mid, hpath0, hlast0, hsome0, hchain0, hmid⟩ := he0
          have hpath : path = cmd :: mid := hpath0
          have hsome : (dist c).isSome = true := hsome0
          have hlin : linearOk g path = true := by
            apply linearOk_of_deg2
            intro v hv
            rw [hpath] at hv
            exact hmid v hv
          rw [searchLoop_cons, hlin, if_pos rfl] at h
          cases hfind : (eligNbrs g dist vis c).find? isSpy with
          | some s =>
              rw [hfind] at h
              exact absurd h (by simp)
          | none =>
              rw [hfind] at h
              have hespy : ∀ x ∈ eligNbrs g dist vis c, isSpy x = false := by
                intro x hx
                have := List.find?_eq_none.mp hfind x hx
                exact Bool.not_eq_true _ ▸ this
              have hfNodup : ((eligNbrs g dist vis c).filter fun n =>
                  (g n).length = 2).Nodup :=
                ((hGnodup c).filter _).filter _
              have hfSub : ∀ x ∈ (eligNbrs g dist vis c).filter fun n =>
                  (g n).length = 2, x ∈ verts := by
                intro x hx
                have hx2 := (List.mem_filter.mp hx).1
                exact hGsub c x (mem_eligNbrs.mp hx2).1
              have hfDisj : ∀ x ∈ (eligNbrs g dist vis c).filter fun n =>
                  (g n).length = 2, x ∉ vis := by
                intro x hx
                have hx2 := (List.mem_filter.mp hx).1
                exact (mem_eligNbrs.mp hx2).2.1
              have hcard := card_sdiff_union hfNodup hfSub hfDisj
              have hbud2 : (rest ++ (((eligNbrs g dist vis c).filter fun n =>
                  (g n).length = 2).map fun n => (n, path ++ [n]))).length +
                  (verts \ (vis ∪ ((eligNbrs g dist vis c).filter fun n =>
                    (g n).length = 2).toFinset)).card ≤ fuel := by
                rw [List.length_append, List.length_map]
                simp only [List.length_cons] at hbud
                omega
              have hq2 : ∀ e ∈ rest ++ (((eligNbrs g dist vis c).filter
                  fun n => (g n).length = 2).map fun n => (n, path ++ [n])),
                  EntryOk g dist cmd e := by
                intro e hee
                rcases List.mem_append.mp hee with hee | hee
                · exact hq e (List.mem_cons_of_mem _ hee)
                · rw [List.mem_map] at hee
                  obtain ⟨n, hn, rfl⟩ := hee
                  exact entryOk_fresh (hq _ (List.mem_cons_self _ _)) hn
              have hvf2 : ∀ v ∈ vis ∪ ((eligNbrs g dist vis c).filter
                  fun n => (g n).length = 2).toFinset, isSpy v = false := by
                intro v hv
                rcases Finset.mem_union.mp hv with hv | hv
                · exact hvisfree v hv
                · have := List.mem_toFinset.mp hv
                  exact hespy v (List.mem_filter.mp this).1
              have IH := ih _ _ hbud2 hq2 hvf2 h
              have hclosed : ∀ v, v ∈ g c →
                  (dist c).getD 0 < (dist v).getD 0 → v ∉ vis →
                  (g v).length = 2 →
                  v ∈ (eligNbrs g dist vis c).filter fun n =>
                    (g n).length = 2 := by
                intro v hv1 hv2 hv3 hv4
                rw [List.mem_filter]
                exact ⟨mem_eligNbrs.mpr ⟨hv1, hv3, hv2⟩, decide_eq_true hv4⟩
              obtain ⟨e, hee, hch⟩ := hex
              rcases List.mem_cons.mp hee with rfl | hee
              · have hch2 : ChainAvoid g dist vis c u := hch
                rcases chainAvoid_transfer hch2 with ⟨x, hxf, hch3⟩ | hch3
                · refine IH u ⟨(x, path ++ [x]), ?_, hch3⟩
                  apply List.mem_append_right
                  rw [List.mem_map]
                  exact ⟨x, hxf, rfl⟩
                · have hu : u = c := chainAvoid_stuck hclosed hch3
                  rintro ⟨s, hsmem, hslt, hsspy⟩
                  rw [hu] at hsmem hslt
                  have hsnvis : s ∉ vis := by
                    intro hsv
                    rw [hvisfree s hsv] at hsspy
                    exact Bool.false_ne_true hsspy
                  have hselig : s ∈ eligNbrs g dist vis c :=
                    mem_eligNbrs.mpr ⟨hsmem, hsnvis, hslt⟩
                  rw [hespy s hselig] at hsspy
                  exact Bool.false_ne_true hsspy
              · rcases chainAvoid_transfer hch with ⟨x, hxf, hch3⟩ | hch3
                · refine IH u ⟨(x, path ++ [x]), ?_, hch3⟩
                  apply List.mem_append_right
                  rw [List.mem_map]
                  exact ⟨x, hxf, rfl⟩
                · exact IH u ⟨e, List.mem_append_left _ hee, hch3⟩

theorem nbrs_nodup (edges : List VEdge) (v : VPos) : (nbrs edges v).Nodup :=
  List.nodup_dedup _

theorem mem_vertexSet_of_mem_nbrs {edges : List VEdge} {v w : VPos}
    (h : w ∈ nbrs edges v) : w ∈ (vertexSet edges).toFinset := by
  unfold nbrs at h
  rw [List.mem_dedup, List.mem_append] at h
  rw [List.mem_toFinset]
  unfold vertexSet
  rw [List.mem_dedup, List.mem_append]
  rcases h with h | h
  · rw [List.mem_map] at h
    obtain ⟨e, he, rfl⟩ := h
    right
    rw [List.mem_map]
    exact ⟨e, (List.mem_filter.mp he).1, rfl⟩
  · rw [List.mem_map] at h
    obtain ⟨e, he, rfl⟩ := h
    left
    rw [List.mem_map]
    exact ⟨e, (List.mem_filter.mp he).1, rfl⟩

theorem mem_cmdPositions_iff {rooms : List VRoom} {p : VPos} :
    p ∈ cmdPositions rooms ↔ roomTypeAt rooms p = some COMMANDER := by
  unfold cmdPositions
  rw [List.mem_filter]
  constructor
  · rintro ⟨-, h⟩
    exact of_decide_eq_true h
  · intro h
    refine ⟨?_, decide_eq_true h⟩
    unfold roomPositions
    rw [List.mem_dedup, List.mem_map]
    unfold roomTypeAt at h
    rcases hq : (rooms.filter fun r => ((r.x, r.y) : VPos) = p).getLast? with
      _ | r
    · rw [hq] at h
      exact absurd h (by simp)
    · obtain ⟨hne, hr⟩ := List.mem_getLast?_eq_getLast (show r ∈ _ by rw [hq]; rfl)
      have hmem : r ∈ rooms.filter fun q => ((q.x, q.y) : VPos) = p := by
        rw [hr]
        exact List.getLast_mem hne
      rw [List.mem_filter] at hmem
      exact ⟨r, hmem.1, of_decide_eq_true hmem.2⟩

theorem isSpyAt_iff {rooms : List VRoom} {p : VPos} :
    isSpyAt rooms p = true ↔ roomTypeAt rooms p = some SPYMASTER := by
  unfold isSpyAt
  constructor
  · exact of_decide_eq_true
  · exact decide_eq_true

theorem isSpyAt_of_cmd {rooms : List VRoom} {p : VPos}
    (h : roomTypeAt rooms p = some COMMANDER) : isSpyAt rooms p = false := by
  unfold isSpyAt
  rw [h]
  rfl

theorem violating_chain_aux {g : VPos → List VPos} {dist : VPos → Option Nat}
    {c : VPos} :
    ∀ (mid : List VPos) (s : VPos),
      (c :: (mid ++ [s])).Chain' (GStep g dist) →
      (∀ v ∈ mid, (g v).length = 2) →
      ∃ u, ChainAvoid g dist {c} c u ∧ s ∈ g u ∧
        (dist u).getD 0 < (dist s).getD 0 := by
  intro mid
  induction mid using List.reverseRecOn with
  | nil =>
      intro s hchain _
      rw [List.nil_append, List.chain'_cons] at hchain
      obtain ⟨⟨hmem, hsf⟩, -⟩ := hchain
      exact ⟨c, ChainAvoid.refl, hmem, (getD_of_strictlyFarther hsf).1⟩
  | append_singleton mid' w ih =>
      intro s hchain hmid
      have hmono : ∀ v ∈ (mid' ++ [w]) ++ [s],
          (dist c).getD 0 < (dist v).getD 0 :=
        chain_head_lt c _
          (List.Chain'.imp (fun a b hab => (getD_of_strictlyFarther hab.2).1)
            hchain)
      have hsplit : c :: ((mid' ++ [w]) ++ [s]) =
          (c :: (mid' ++ [w])) ++ [s] := by
        rw [List.cons_append]
      rw [hsplit, List.chain'_append] at hchain
      obtain ⟨hchain1, -, hstep⟩ := hchain
      have hlastw : (c :: (mid' ++ [w])).getLast? = some w := by
        rw [← List.cons_append, List.getLast?_concat]
      have hws : GStep g dist w s :=
        hstep w (by rw [hlastw]; rfl) s rfl
      obtain ⟨u', hch', hwmem, hwlt⟩ := ih w hchain1
        (fun v hv => hmid v (List.mem_append_left _ hv))
      have hwdeg : (g w).length = 2 :=
        hmid w (List.mem_append_right _ (List.mem_singleton_self w))
      have hwne : w ∉ ({c} : Finset VPos) := by
        rw [Finset.mem_singleton]
        intro hwc
        have hlt := hmono w
          (List.mem_append_left _ (List.mem_append_right _
            (List.mem_singleton_self w)))
        rw [hwc] at hlt
        exact lt_irrefl _ hlt
      have hch2 : ChainAvoid g dist {c} c w :=
        hch'.step hwmem hwlt hwne hwdeg
      exact ⟨w, hch2, hws.1, (getD_of_strictlyFarther hws.2).1⟩

theorem searchFromCmd_sound {rooms : List VRoom} {edges : List VEdge}
    {cmd : VPos} {l : List VPos}
    (hcmd : cmd ∈ cmdPositions rooms)
    (h : searchFromCmd rooms edges cmd = some l) :
    ViolatingPath rooms edges l := by
  unfold searchFromCmd at h
  by_cases hguard : nbrs edges cmd = [] ∨ distOf edges cmd = none
  · rw [if_pos hguard] at h
    exact absurd h (by simp)
  · rw [if_neg hguard] at h
    push_neg at hguard
    have hsome : (distOf edges cmd).isSome = true :=
      Option.ne_none_iff_isSome.mp hguard.2
    have hOk : ∀ e ∈ [(cmd, [cmd])],
        EntryOk (nbrs edges) (distOf edges) cmd e := by
      intro e he
      rw [List.mem_singleton] at he
      subst he
      exact ⟨[], rfl, rfl, hsome, List.chain'_singleton cmd, by simp⟩
    obtain ⟨mid, s, hl, hspy, hchain, hmid⟩ := searchLoop_sound _ _ _ hOk h
    exact ⟨cmd, mid, s, hl, mem_cmdPositions_iff.mp hcmd,
      isSpyAt_iff.mp hspy, hchain, hmid⟩

theorem violating_searchFromCmd {rooms : List VRoom} {edges : List VEdge}
    {l : List VPos} (hv : ViolatingPath rooms edges l) :
    ∃ cmd ∈ cmdPositions rooms, searchFromCmd rooms edges cmd ≠ none := by
  obtain ⟨c, mid, s, hleq, hc, hs, hchain0, hmid⟩ := hv
  subst hleq
  have hchain : (c :: (mid ++ [s])).Chain'
      (GStep (nbrs edges) (distOf edges)) := hchain0
  refine ⟨c, mem_cmdPositions_iff.mpr hc, ?_⟩
  intro hnone
  have hy : ∃ y, GStep (nbrs edges) (distOf edges) c y := by
    cases hm : mid ++ [s] with
    | nil => exact absurd hm (by simp)
    | cons y t =>
        rw [hm, List.chain'_cons] at hchain
        exact ⟨y, hchain.1⟩
  obtain ⟨y, hymem, hysf⟩ := hy
  have hguard : ¬(nbrs edges c = [] ∨ distOf edges c = none) := by
    rintro (hg | hg)
    · rw [hg] at hymem
      exact absurd hymem (List.not_mem_nil y)
    · obtain ⟨du, -, hdu, -, -⟩ := hysf
      rw [hg] at hdu
      exact absurd hdu (by simp)
  unfold searchFromCmd at hnone
  rw [if_neg hguard] at hnone
  have hsome : (distOf edges c).isSome = true := by
    obtain ⟨du, -, hdu, -, -⟩ := hysf
    rw [hdu]
    rfl
  have hOk : ∀ e ∈ [(c, [c])],
      EntryOk (nbrs edges) (distOf edges) c e := by
    intro e he
    rw [List.mem_singleton] at he
    subst he
    exact ⟨[], rfl, rfl, hsome, List.chain'_singleton c, by simp⟩
  have hbud : ([(c, [c])] : List (VPos × List VPos)).length +
      ((vertexSet edges).toFinset \ {c}).card ≤
        (vertexSet edges).length + 2 := by
    have h1 : ((vertexSet edges).toFinset \ ({c} : Finset VPos)).card ≤
        (vertexSet edges).toFinset.card :=
      Finset.card_le_card (Finset.sdiff_subset)
    have h2 : (vertexSet edges).toFinset.card ≤ (vertexSet edges).length :=
      List.toFinset_card_le _
    simp only [List.length_singleton]
    omega
  have hfree : ∀ v ∈ ({c} : Finset VPos), isSpyAt rooms v = false := by
    intro v hv
    rw [Finset.mem_singleton] at hv
    subst hv
    exact isSpyAt_of_cmd hc
  have hcomp := searchLoop_complete
    (fun v w hw => mem_vertexSet_of_mem_nbrs hw) (nbrs_nodup edges)
    ((vertexSet edges).length + 2) [(c, [c])] {c} hbud hOk hfree hnone
  obtain ⟨u, hch, hsmem, hslt⟩ :=
    violating_chain_aux mid s hchain hmid
  refine hcomp u ⟨(c, [c]), List.mem_singleton_self _, hch⟩ ?_
  exact ⟨s, hsmem, hslt, isSpyAt_iff.mpr hs⟩

/-- C4: the post-solve directional validator returns (False, a violating path)
exactly when the edge graph contains a path from a COMMANDER cell to a
SPYMASTER cell whose every step moves strictly farther from the foyer by BFS
distance and whose interior vertices (excluding both endpoints) all have
degree exactly two; otherwise it returns (True, None), and any returned path
is itself violating. -/
theorem C4_validator_correct :
    ∀ (rooms : List VRoom) (edges : List VEdge),
      ((validateSpyCmd rooms edges).1 = false ↔
        ∃ l, ViolatingPath rooms edges l) ∧
      (∀ l, (validateSpyCmd rooms edges).2 = some l →
        ViolatingPath rooms edges l) ∧
      ((validateSpyCmd rooms edges).1 = true ↔
        (validateSpyCmd rooms edges).2 = none) := by
  intro rooms edges
  unfold validateSpyCmd
  cases hfs : (cmdPositions rooms).findSome? (searchFromCmd rooms edges) with
  | some l0 =>
      obtain ⟨cmd, hcmdmem, hcs⟩ := List.exists_of_findSome?_eq_some hfs
      have hviol := searchFromCmd_sound hcmdmem hcs
      refine ⟨⟨fun _ => ⟨l0, hviol⟩, fun _ => rfl⟩, ?_, ?_⟩
      · intro l hl
        simp only [Option.some.injEq] at hl
        subst hl
        exact hviol
      · constructor
        · intro h
          exact absurd h (by simp)
        · intro h
          exact absurd h (by simp)
  | none =>
      refine ⟨?_, ?_, ?_⟩
      · constructor
        · intro h
          exact absurd h (by simp)
        · rintro ⟨l, hv⟩
          obtain ⟨cmd, hmem, hne⟩ := violating_searchFromCmd hv
          rw [List.findSome?_eq_none_iff] at hfs
          exact absurd (hfs cmd hmem) hne
      · intro l hl
        exact absurd hl (by simp)
      · exact ⟨fun _ => rfl, fun _ => rfl⟩

/-- Witness for C4: the concrete commander-then-spymaster layout, on which the
validator's returned path is proved violating. -/
theorem C4_witness :
    ViolatingPath vexRooms vexEdges [(5, 2), (5, 3)] :=
  (C4_validator_correct vexRooms vexEdges).2.1 [(5, 2), (5, 3)] (by decide)

